import Mathlib

/-!
Verification of the Hangul Jamo composer (package `jamo`) and the English
transliterator (package `english`) of this repository.

The composer is embedded shallowly at the codepoint level: a Go `rune` is a
`Nat` codepoint, a Go string is a `List Nat` of codepoints, and the
`composer` state machine of `Compose` becomes a structurally recursive
function over the sequence of results of the `read` method.

The repository imports the external library `go_hangul` for
`Split` / `Join` / `IsHangul` / `IsJaeum` / `IsMoeum`; that library is not
part of this repository's sources, so those five functions are modelled
from the spec (role classification by Unicode block membership, and the
canonical offset arithmetic
`syllableIndex = codepoint - 0xAC00`, `tailIndex = idx % 28`,
`vowelIndex = (idx / 28) % 21`, `leadIndex = idx / (28*21)`).
-/

namespace Jamo

/-- Codepoints of the 19 lead consonants (Choseong) as compatibility Jamo,
in canonical lead-index order ㄱㄲㄴㄷㄸㄹㅁㅂㅃㅅㅆㅇㅈㅉㅊㅋㅌㅍㅎ. -/
def leadJamos : List Nat :=
  [0x3131, 0x3132, 0x3134, 0x3137, 0x3138, 0x3139, 0x3141, 0x3142, 0x3143,
   0x3145, 0x3146, 0x3147, 0x3148, 0x3149, 0x314A, 0x314B, 0x314C, 0x314D,
   0x314E]

/-- Codepoints of the 28 tail (Jongseong) slots as compatibility Jamo, in
canonical tail-index order; index 0 is the empty tail. -/
def tailJamos : List Nat :=
  [0, 0x3131, 0x3132, 0x3133, 0x3134, 0x3135, 0x3136, 0x3137, 0x3139,
   0x313A, 0x313B, 0x313C, 0x313D, 0x313E, 0x313F, 0x3140, 0x3141, 0x3142,
   0x3144, 0x3145, 0x3146, 0x3147, 0x3148, 0x314A, 0x314B, 0x314C, 0x314D,
   0x314E]

/-- Lead compatibility Jamo of a lead index. -/
def leadAt (i : Nat) : Nat := leadJamos.getD i 0

/-- Tail compatibility Jamo of a tail index (0 for the empty tail). -/
def tailAt (i : Nat) : Nat := tailJamos.getD i 0

/-- Modelled from the spec: `hangul.IsJaeum` of the external go_hangul
library — membership in the compatibility consonant block ㄱ..ㅎ. -/
def isJaeum (ch : Nat) : Bool := decide (0x3131 ≤ ch ∧ ch ≤ 0x314E)

/-- Modelled from the spec: `hangul.IsMoeum` — membership in the
compatibility vowel block ㅏ..ㅣ. -/
def isMoeum (ch : Nat) : Bool := decide (0x314F ≤ ch ∧ ch ≤ 0x3163)

/-- Membership in the precomposed Hangul syllable block 가..힣. -/
def isSyllable (ch : Nat) : Bool := decide (0xAC00 ≤ ch ∧ ch ≤ 0xD7A3)

/-- Modelled from the spec: `hangul.IsHangul` — the codepoint plays some
Hangul role (consonant Jamo, vowel Jamo, or precomposed syllable). -/
def isHangul (ch : Nat) : Bool := isJaeum ch || isMoeum ch || isSyllable ch

/-- `isComposed` as computed by `analyzeHangul` in the source:
Hangul that is neither a consonant Jamo nor a vowel Jamo. -/
def isComposed (ch : Nat) : Bool := isHangul ch && !isJaeum ch && !isMoeum ch

/-- Modelled from the spec: `hangul.Split` — decompose a precomposed
syllable into its (lead, medial, tail) compatibility Jamo by the canonical
offset arithmetic; a codepoint outside the syllable block has no parts. -/
def Split (ch : Nat) : Nat × Nat × Nat :=
  if isSyllable ch then
    (leadAt ((ch - 0xAC00) / 588),
     0x314F + (ch - 0xAC00) / 28 % 21,
     tailAt ((ch - 0xAC00) % 28))
  else (0, 0, 0)

/-- Modelled from the spec: `hangul.Join` — the inverse offset formula,
recovering each component's index from its compatibility Jamo. -/
def Join (l m t : Nat) : Nat :=
  0xAC00 + 588 * leadJamos.indexOf l + 28 * (m - 0x314F) + tailJamos.indexOf t

/-- The composer's three buffered Jamo slots `lmt : [3]rune`
([lead, medial, tail]); 0 is the empty slot, as in the source's
zero-rune convention. -/
structure LMT where
  lead : Nat
  medial : Nat
  tail : Nat
deriving DecidableEq

/-- The zero value of `[3]rune`: the empty buffer. -/
def LMT.empty : LMT := ⟨0, 0, 0⟩

/-- `composer.write`: flush the buffered Jamos to the output buffer.
An entirely empty buffer writes nothing; otherwise an empty lead slot is
filled with ㅇ (0x3147) and an empty medial slot with ㅡ (0x3161), and the
joined letter is appended. The slot buffer is cleared. -/
def write (lmt : LMT) (buf : List Nat) : LMT × List Nat :=
  if lmt = LMT.empty then (lmt, buf)
  else
    (LMT.empty,
     buf ++ [Join (if lmt.lead = 0 then 0x3147 else lmt.lead)
                  (if lmt.medial = 0 then 0x3161 else lmt.medial)
                  lmt.tail])

/-- `composer.read`: consume one character, skipping hyphen markers; every
hyphen seen sets the tail flag for the returned character. `none` is the
reader's io.EOF. -/
def read (isTl : Bool) : List Nat → Option (Nat × Bool × List Nat)
  | [] => none
  | ch :: rest => if ch = 45 then read true rest else some (ch, isTl, rest)

/-- The full sequence of results of successive `read` calls: each returned
(character, tail-flag) pair in order. `Compose` iterates exactly this
sequence. -/
def tokens (isTl : Bool) : List Nat → List (Nat × Bool)
  | [] => []
  | ch :: rest => if ch = 45 then tokens true rest else (ch, isTl) :: tokens false rest

/-- The flush decision of the decomposed-Jamo branch of `composer.Compose`:
flush when the score does not increase, except when a tail follows a medial
with the tail slot still empty. -/
def flushNeeded (score prevScore : Int) (tailSlot : Nat) : Bool :=
  decide (score ≤ prevScore ∧ ¬(score = 2 ∧ prevScore = 1 ∧ tailSlot = 0))

/-- `composer.Compose`, one iteration of the source's loop per token of
the `read` sequence. Loop-carried state: the slot buffer `lmt`, the output
buffer `buf`, and `score`. `prevScore` is bound at the top of each
iteration from the carried `score`, exactly as in the source; the `-1`
written to `prevScore` by the pass-through branch is overwritten by that
binding before it is ever read, so only `score` is carried. -/
def Compose : List (Nat × Bool) → LMT → List Nat → Int → List Nat
  | [], lmt, buf, score =>
      -- EOF iteration: read fails with ch = 0, and the smart-attach
      -- pre-check compares (Split 0).1 = 0 with 0x3147, so it cannot fire;
      -- the loop breaks and the final letter is written unless the last
      -- score was the pass-through sentinel.
      if score ≠ -1 then (write lmt buf).2 else buf
  | (ch, isTl) :: rest, lmt, buf, score =>
      let prevScore := score
      -- Smart-attach pre-check, before Hangul classification.
      if lmt.lead ≠ 0 ∧ lmt.medial = 0 ∧ (Split ch).1 = 0x3147 then
        Compose rest { lmt with medial := (Split ch).2.1, tail := (Split ch).2.2 }
          buf prevScore
      else if !isHangul ch then
        -- Non-Hangul pass-through.
        let p := if prevScore ≠ -1 then write lmt buf else (lmt, buf)
        Compose rest p.1 (p.2 ++ [ch]) prevScore
      else if isComposed ch then
        -- Composed Hangul.
        if lmt.lead ≠ 0 ∧ lmt.medial = 0 ∧ (Split ch).1 = 0x3147 then
          Compose rest { lmt with medial := (Split ch).2.1, tail := (Split ch).2.2 }
            buf 2
        else
          let p := write lmt buf
          Compose rest
            { p.1 with lead := (Split ch).1, medial := (Split ch).2.1,
                       tail := (Split ch).2.2 } p.2 2
      else
        -- Decomposed Jamo.
        let score2 : Int := if isMoeum ch then 1 else if isTl then 2 else 0
        let p := if flushNeeded score2 prevScore lmt.tail then write lmt buf
                 else (lmt, buf)
        -- score2 is 0, 1 or 2 by construction, so the source's
        -- `c.lmt[score] = ch` is this three-way slot update.
        let lmt2 := if score2 = 0 then { p.1 with lead := ch }
                    else if score2 = 1 then { p.1 with medial := ch }
                    else { p.1 with tail := ch }
        Compose rest lmt2 p.2 score2

/-- `ComposeHangul`: run the composer over a word, starting from the zero
values of the Go `composer` struct (empty buffer, score 0). -/
def ComposeHangul (word : List Nat) : List Nat :=
  Compose (tokens false word) LMT.empty [] 0

/-- A Lean string as its list of codepoints, for concrete examples. -/
def str (s : String) : List Nat := s.data.map Char.toNat

/-! ### Basic lemmas about the embedded operations -/

lemma write_fst (lmt : LMT) (buf : List Nat) : (write lmt buf).1 = LMT.empty := by
  by_cases h : lmt = LMT.empty
  · simp [write, h]
  · simp [write, h]

lemma write_empty (buf : List Nat) : write LMT.empty buf = (LMT.empty, buf) := by
  simp [write]

lemma write_ne {lmt : LMT} (h : lmt ≠ LMT.empty) (buf : List Nat) :
    write lmt buf =
      (LMT.empty,
       buf ++ [Join (if lmt.lead = 0 then 0x3147 else lmt.lead)
                    (if lmt.medial = 0 then 0x3161 else lmt.medial)
                    lmt.tail]) := by
  simp [write, h]

lemma tokens_cons {c : Nat} (h : c ≠ 45) (b : Bool) (r : List Nat) :
    tokens b (c :: r) = (c, b) :: tokens false r := by
  simp [tokens, h]

lemma tokens_hyphen (b : Bool) (r : List Nat) : tokens b (45 :: r) = tokens true r := by
  simp [tokens]

/-- The token sequence is exactly the sequence of successive `read` results. -/
lemma tokens_eq_read (input : List Nat) : ∀ b : Bool,
    tokens b input =
      (match read b input with
       | none => []
       | some (ch, tl, rest) => (ch, tl) :: tokens false rest) := by
  induction input with
  | nil => intro b; rfl
  | cons c r ih =>
      intro b
      by_cases h : c = 45
      · subst h; simpa [tokens, read] using ih true
      · simp [tokens, read, h]

/-- One loop iteration at end of stream: final flush unless the last score
was the pass-through sentinel. -/
lemma compose_nil (lmt : LMT) (buf : List Nat) (score : Int) :
    Compose [] lmt buf score = if score ≠ -1 then (write lmt buf).2 else buf := rfl

/-! ### Well-formed decomposed words -/

/-- A standard syllable, given by its lead, vowel, and tail indices
(tail index 0 means no tail). -/
structure Syl where
  l : Fin 19
  v : Fin 21
  t : Fin 28
deriving DecidableEq

/-- The lead compatibility Jamo of a syllable. -/
def Syl.leadCh (s : Syl) : Nat := leadAt s.l

/-- The vowel compatibility Jamo of a syllable. -/
def Syl.vowelCh (s : Syl) : Nat := 0x314F + s.v

/-- The tail compatibility Jamo of a syllable (0 when there is no tail). -/
def Syl.tailCh (s : Syl) : Nat := tailAt s.t

/-- The canonical decomposed Jamo spelling of one syllable: lead, vowel,
and, when a tail is present, the hyphen marker followed by the tail. -/
def decompSyl (s : Syl) : List Nat :=
  s.leadCh :: s.vowelCh :: (if s.t.val = 0 then [] else [45, s.tailCh])

/-- The canonical decomposed Jamo spelling of a word. -/
def decompWord (ws : List Syl) : List Nat := ws.flatMap decompSyl

/-- The precomposed codepoint of a syllable, by the canonical offset
formula. -/
def precomp (s : Syl) : Nat := 0xAC00 + 588 * s.l.val + 28 * s.v.val + s.t.val

/-- The slot buffer holding exactly the Jamos of a syllable. -/
def bufOf (s : Syl) : LMT := ⟨s.leadCh, s.vowelCh, s.tailCh⟩

/-- The score after the last Jamo of a syllable has been buffered. -/
def scoreOf (s : Syl) : Int := if s.t.val = 0 then 1 else 2

/-- The tokens produced by reading the decomposed spelling of one
syllable. -/
def tokSyl (s : Syl) : List (Nat × Bool) :=
  (s.leadCh, false) :: (s.vowelCh, false) ::
    (if s.t.val = 0 then [] else [(s.tailCh, true)])

/-! ### Classification facts about the Jamo alphabets, by computation -/

lemma leadCh_isHangul : ∀ i : Fin 19, isHangul (leadAt i.val) = true := by decide

lemma leadCh_isMoeum : ∀ i : Fin 19, isMoeum (leadAt i.val) = false := by decide

lemma leadCh_isComposed : ∀ i : Fin 19, isComposed (leadAt i.val) = false := by decide

lemma leadCh_ne_hyphen : ∀ i : Fin 19, leadAt i.val ≠ 45 := by decide

lemma leadCh_ne_zero : ∀ i : Fin 19, leadAt i.val ≠ 0 := by decide

lemma leadCh_split : ∀ i : Fin 19, (Split (leadAt i.val)).1 = 0 := by decide

lemma vowelCh_isHangul : ∀ v : Fin 21, isHangul (0x314F + v.val) = true := by decide

lemma vowelCh_isMoeum : ∀ v : Fin 21, isMoeum (0x314F + v.val) = true := by decide

lemma vowelCh_isComposed : ∀ v : Fin 21, isComposed (0x314F + v.val) = false := by decide

lemma vowelCh_ne_hyphen : ∀ v : Fin 21, (0x314F + v.val) ≠ 45 := by decide

lemma vowelCh_ne_zero : ∀ v : Fin 21, (0x314F + v.val) ≠ 0 := by decide

lemma vowelCh_split : ∀ v : Fin 21, (Split (0x314F + v.val)).1 = 0 := by decide

lemma tailCh_isHangul : ∀ t : Fin 28, t.val ≠ 0 → isHangul (tailAt t.val) = true := by decide

lemma tailCh_isMoeum : ∀ t : Fin 28, t.val ≠ 0 → isMoeum (tailAt t.val) = false := by decide

lemma tailCh_isComposed : ∀ t : Fin 28, t.val ≠ 0 → isComposed (tailAt t.val) = false := by decide

lemma tailCh_ne_hyphen : ∀ t : Fin 28, t.val ≠ 0 → tailAt t.val ≠ 45 := by decide

lemma tailCh_split : ∀ t : Fin 28, t.val ≠ 0 → (Split (tailAt t.val)).1 = 0 := by decide

lemma indexOf_leadAt : ∀ i : Fin 19, leadJamos.indexOf (leadAt i.val) = i.val := by decide

lemma indexOf_tailAt : ∀ t : Fin 28, tailJamos.indexOf (tailAt t.val) = t.val := by decide

/-- Joining the exact Jamos of a standard syllable yields its precomposed
codepoint. -/
lemma Join_bufOf (s : Syl) : Join s.leadCh s.vowelCh s.tailCh = precomp s := by
  unfold Join precomp Syl.leadCh Syl.vowelCh Syl.tailCh
  rw [indexOf_leadAt, indexOf_tailAt]
  omega

lemma bufOf_ne_empty (s : Syl) : bufOf s ≠ LMT.empty := by
  intro h
  exact leadCh_ne_zero s.l (congrArg LMT.lead h)

/-- Flushing the buffer of a standard syllable emits its precomposed
codepoint. -/
lemma write_bufOf (s : Syl) (buf : List Nat) :
    write (bufOf s) buf = (LMT.empty, buf ++ [precomp s]) := by
  rw [write_ne (bufOf_ne_empty s)]
  have h1 : ¬((bufOf s).lead = 0) := leadCh_ne_zero s.l
  have h2 : ¬((bufOf s).medial = 0) := vowelCh_ne_zero s.v
  rw [if_neg h1, if_neg h2]
  exact congrArg (fun x => (LMT.empty, buf ++ [x])) (Join_bufOf s)

/-! ### Step lemmas: one loop iteration of `Compose` per case -/


lemma isHangul_of_moeum {ch : Nat} (h : isMoeum ch = true) : isHangul ch = true := by
  simp [isHangul, h]

lemma isComposed_of_moeum {ch : Nat} (h : isMoeum ch = true) : isComposed ch = false := by
  simp [isComposed, h]

lemma isHangul_of_composed {ch : Nat} (h : isComposed ch = true) : isHangul ch = true := by
  simp [isComposed] at h
  exact h.1.1

lemma flushNeeded_gt {score prev : Int} (h : prev < score) (x : Nat) :
    flushNeeded score prev x = false := by
  simp [flushNeeded]
  omega

lemma flushNeeded_zero_nonneg {p : Int} (h : 0 ≤ p) (x : Nat) :
    flushNeeded 0 p x = true := by
  simp [flushNeeded]
  omega

lemma flushNeeded_one_one (x : Nat) : flushNeeded 1 1 x = true := by
  simp [flushNeeded]

lemma step_smart {ch : Nat} {lmt : LMT} (h1 : lmt.lead ≠ 0) (h2 : lmt.medial = 0)
    (h3 : (Split ch).1 = 0x3147) (isTl : Bool) (rest : List (Nat × Bool))
    (buf : List Nat) (score : Int) :
    Compose ((ch, isTl) :: rest) lmt buf score =
      Compose rest { lmt with medial := (Split ch).2.1, tail := (Split ch).2.2 }
        buf score := by
  simp only [Compose]
  rw [if_pos ⟨h1, h2, h3⟩]

lemma step_composed {ch : Nat} {lmt : LMT}
    (hsm : ¬(lmt.lead ≠ 0 ∧ lmt.medial = 0 ∧ (Split ch).1 = 0x3147))
    (hC : isComposed ch = true)
    (isTl : Bool) (rest : List (Nat × Bool)) (buf : List Nat) (score : Int) :
    Compose ((ch, isTl) :: rest) lmt buf score =
      Compose rest ⟨(Split ch).1, (Split ch).2.1, (Split ch).2.2⟩
        (write lmt buf).2 2 := by
  simp only [Compose]
  rw [if_neg hsm]
  simp [isHangul_of_composed hC, hC, hsm, write_fst]

lemma step_lead_flush {ch : Nat} {lmt : LMT} {score : Int}
    (hsm : ¬(lmt.lead ≠ 0 ∧ lmt.medial = 0 ∧ (Split ch).1 = 0x3147))
    (hH : isHangul ch = true) (hM : isMoeum ch = false) (hC : isComposed ch = false)
    (hf : flushNeeded 0 score lmt.tail = true)
    (rest : List (Nat × Bool)) (buf : List Nat) :
    Compose ((ch, false) :: rest) lmt buf score =
      Compose rest ⟨ch, 0, 0⟩ (write lmt buf).2 0 := by
  simp only [Compose]
  rw [if_neg hsm]
  simp [hH, hM, hC, hf, write_fst, LMT.empty]

lemma step_vowel_noflush {ch : Nat} {lmt : LMT} {score : Int}
    (hsm : ¬(lmt.lead ≠ 0 ∧ lmt.medial = 0 ∧ (Split ch).1 = 0x3147))
    (hM : isMoeum ch = true)
    (hf : flushNeeded 1 score lmt.tail = false)
    (isTl : Bool) (rest : List (Nat × Bool)) (buf : List Nat) :
    Compose ((ch, isTl) :: rest) lmt buf score =
      Compose rest { lmt with medial := ch } buf 1 := by
  simp only [Compose]
  rw [if_neg hsm]
  simp [isHangul_of_moeum hM, isComposed_of_moeum hM, hM, hf]

lemma step_vowel_flush {ch : Nat} {lmt : LMT} {score : Int}
    (hsm : ¬(lmt.lead ≠ 0 ∧ lmt.medial = 0 ∧ (Split ch).1 = 0x3147))
    (hM : isMoeum ch = true)
    (hf : flushNeeded 1 score lmt.tail = true)
    (isTl : Bool) (rest : List (Nat × Bool)) (buf : List Nat) :
    Compose ((ch, isTl) :: rest) lmt buf score =
      Compose rest ⟨0, ch, 0⟩ (write lmt buf).2 1 := by
  simp only [Compose]
  rw [if_neg hsm]
  simp [isHangul_of_moeum hM, isComposed_of_moeum hM, hM, hf, write_fst, LMT.empty]

lemma step_tailM_noflush {ch : Nat} {lmt : LMT} {score : Int}
    (hsm : ¬(lmt.lead ≠ 0 ∧ lmt.medial = 0 ∧ (Split ch).1 = 0x3147))
    (hH : isHangul ch = true) (hM : isMoeum ch = false) (hC : isComposed ch = false)
    (hf : flushNeeded 2 score lmt.tail = false)
    (rest : List (Nat × Bool)) (buf : List Nat) :
    Compose ((ch, true) :: rest) lmt buf score =
      Compose rest { lmt with tail := ch } buf 2 := by
  simp only [Compose]
  rw [if_neg hsm]
  simp [hH, hM, hC, hf]


/-! ### Composing a canonically decomposed word -/


lemma tokens_decompSyl (s : Syl) (r : List Nat) :
    tokens false (decompSyl s ++ r) = tokSyl s ++ tokens false r := by
  have h1 : s.leadCh ≠ 45 := leadCh_ne_hyphen s.l
  have h2 : s.vowelCh ≠ 45 := vowelCh_ne_hyphen s.v
  unfold decompSyl tokSyl
  by_cases h : s.t.val = 0
  · rw [if_pos h, if_pos h, List.cons_append, List.cons_append, List.nil_append,
      tokens_cons h1, tokens_cons h2]
    rfl
  · have h3 : s.tailCh ≠ 45 := tailCh_ne_hyphen s.t h
    rw [if_neg h, if_neg h, List.cons_append, List.cons_append, List.cons_append,
      List.cons_append, List.nil_append, tokens_cons h1, tokens_cons h2,
      tokens_hyphen, tokens_cons h3]
    rfl

lemma tokens_decompWord (ws : List Syl) :
    tokens false (decompWord ws) = ws.flatMap tokSyl := by
  induction ws with
  | nil => rfl
  | cons s ws ih =>
      unfold decompWord at ih ⊢
      rw [List.flatMap_cons, List.flatMap_cons, tokens_decompSyl, ih]

lemma scoreOf_ne_neg (s : Syl) : scoreOf s ≠ -1 := by
  unfold scoreOf
  by_cases h : s.t.val = 0 <;> simp [h]

lemma tailCh_of_zero (s : Syl) (h : s.t.val = 0) : s.tailCh = 0 := by
  unfold Syl.tailCh tailAt
  rw [h]
  rfl

lemma compose_final_syl (s : Syl) (buf : List Nat) :
    Compose [] (bufOf s) buf (scoreOf s) = buf ++ [precomp s] := by
  rw [compose_nil, if_pos (scoreOf_ne_neg s), write_bufOf]

/-- Process the vowel and optional marked tail of one syllable, from the
state where its lead has just been buffered. -/
lemma seg_core (s : Syl) (rest : List (Nat × Bool)) (buf : List Nat) :
    Compose ((s.vowelCh, false) ::
        (if s.t.val = 0 then [] else [(s.tailCh, true)]) ++ rest)
      ⟨s.leadCh, 0, 0⟩ buf 0 =
      Compose rest (bufOf s) buf (scoreOf s) := by
  have hv : (Split s.vowelCh).1 = 0 := vowelCh_split s.v
  have hsm : ¬((LMT.mk s.leadCh 0 0).lead ≠ 0 ∧ (LMT.mk s.leadCh 0 0).medial = 0 ∧
      (Split s.vowelCh).1 = 0x3147) := by
    intro hx
    have h12615 := hx.2.2
    rw [hv] at h12615
    exact absurd h12615 (by decide)
  rw [List.cons_append,
    step_vowel_noflush hsm (vowelCh_isMoeum s.v) (flushNeeded_gt (by decide) _)
      false _ buf]
  by_cases h : s.t.val = 0
  · rw [if_pos h, List.nil_append]
    have hb : bufOf s = LMT.mk s.leadCh s.vowelCh 0 := by
      unfold bufOf
      rw [tailCh_of_zero s h]
    have hs : scoreOf s = 1 := by simp [scoreOf, h]
    rw [hb, hs]
  · rw [if_neg h, List.cons_append, List.nil_append]
    have hsm2 : ¬((LMT.mk s.leadCh s.vowelCh 0).lead ≠ 0 ∧
        (LMT.mk s.leadCh s.vowelCh 0).medial = 0 ∧
        (Split s.tailCh).1 = 0x3147) := by
      intro hx
      exact vowelCh_ne_zero s.v hx.2.1
    rw [step_tailM_noflush hsm2 (tailCh_isHangul s.t h) (tailCh_isMoeum s.t h)
      (tailCh_isComposed s.t h) (flushNeeded_gt (by decide) _) rest buf]
    have hs : scoreOf s = 2 := by simp [scoreOf, h]
    rw [hs]
    rfl

/-- Process one whole syllable from the empty buffer. -/
lemma seg_from_empty (s : Syl) (rest : List (Nat × Bool)) (buf : List Nat) :
    Compose (tokSyl s ++ rest) LMT.empty buf 0 =
      Compose rest (bufOf s) buf (scoreOf s) := by
  unfold tokSyl
  have hsm : ¬(LMT.empty.lead ≠ 0 ∧ LMT.empty.medial = 0 ∧
      (Split s.leadCh).1 = 0x3147) := by
    intro h
    exact h.1 rfl
  rw [List.cons_append,
    step_lead_flush hsm (leadCh_isHangul s.l) (leadCh_isMoeum s.l)
      (leadCh_isComposed s.l) (flushNeeded_zero_nonneg le_rfl _) _ buf,
    write_empty]
  exact seg_core s rest buf

/-- Process one whole syllable from the buffer state left by a previous
syllable: the previous syllable is flushed, then the new one is buffered. -/
lemma seg_from_syl (s s' : Syl) (rest : List (Nat × Bool)) (buf : List Nat) :
    Compose (tokSyl s ++ rest) (bufOf s') buf (scoreOf s') =
      Compose rest (bufOf s) (buf ++ [precomp s']) (scoreOf s) := by
  unfold tokSyl
  have hsm : ¬((bufOf s').lead ≠ 0 ∧ (bufOf s').medial = 0 ∧
      (Split s.leadCh).1 = 0x3147) := by
    intro h
    exact vowelCh_ne_zero s'.v h.2.1
  have hsc : (0 : Int) ≤ scoreOf s' := by
    unfold scoreOf
    by_cases h : s'.t.val = 0 <;> simp [h]
  rw [List.cons_append,
    step_lead_flush hsm (leadCh_isHangul s.l) (leadCh_isMoeum s.l)
      (leadCh_isComposed s.l) (flushNeeded_zero_nonneg hsc _) _ buf,
    write_bufOf]
  exact seg_core s rest (buf ++ [precomp s'])

lemma run_from_syl : ∀ (ws : List Syl) (s' : Syl) (buf : List Nat),
    Compose (ws.flatMap tokSyl) (bufOf s') buf (scoreOf s') =
      buf ++ precomp s' :: ws.map precomp := by
  intro ws
  induction ws with
  | nil =>
      intro s' buf
      rw [List.flatMap_nil, compose_final_syl]
      simp
  | cons s ws ih =>
      intro s' buf
      rw [List.flatMap_cons, seg_from_syl s s', ih s]
      simp

/-- Round trip on any canonically decomposed word. -/
lemma compose_decompWord (ws : List Syl) :
    ComposeHangul (decompWord ws) = ws.map precomp := by
  unfold ComposeHangul
  rw [tokens_decompWord]
  cases ws with
  | nil =>
      rw [List.flatMap_nil, compose_nil, if_pos (by decide), write_empty]
      rfl
  | cons s ws =>
      rw [List.flatMap_cons, seg_from_empty s, run_from_syl ws s]
      simp



/-! ### Idempotence on precomposed syllables -/

lemma isSyllable_range {ch : Nat} (h : isSyllable ch = true) :
    0xAC00 ≤ ch ∧ ch ≤ 0xD7A3 := by
  simpa [isSyllable] using h

lemma isComposed_of_syllable {ch : Nat} (h : isSyllable ch = true) :
    isComposed ch = true := by
  have hr := isSyllable_range h
  simp [isComposed, isHangul, isJaeum, isMoeum, isSyllable]
  omega

lemma leadAt_ne_zero (i : Nat) (h : i < 19) : leadAt i ≠ 0 :=
  leadCh_ne_zero ⟨i, h⟩

lemma indexOf_leadAt_nat (i : Nat) (h : i < 19) :
    leadJamos.indexOf (leadAt i) = i :=
  indexOf_leadAt ⟨i, h⟩

lemma indexOf_tailAt_nat (i : Nat) (h : i < 28) :
    tailJamos.indexOf (tailAt i) = i :=
  indexOf_tailAt ⟨i, h⟩

lemma split_div_lt {ch : Nat} (h : isSyllable ch = true) :
    (ch - 0xAC00) / 588 < 19 := by
  have hr := isSyllable_range h
  have : ch - 0xAC00 < 19 * 588 := by omega
  exact Nat.div_lt_of_lt_mul (by omega)

lemma split_syl {ch : Nat} (h : isSyllable ch = true) :
    Split ch = (leadAt ((ch - 0xAC00) / 588),
      0x314F + (ch - 0xAC00) / 28 % 21,
      tailAt ((ch - 0xAC00) % 28)) := by
  simp [Split, h]

lemma split_lead_ne_zero {ch : Nat} (h : isSyllable ch = true) :
    (Split ch).1 ≠ 0 := by
  rw [split_syl h]
  exact leadAt_ne_zero _ (split_div_lt h)

lemma split_medial_ne_zero {ch : Nat} (h : isSyllable ch = true) :
    (Split ch).2.1 ≠ 0 := by
  rw [split_syl h]
  simp

/-- Joining the parts of a split syllable recovers the syllable. -/
lemma Join_Split {ch : Nat} (h : isSyllable ch = true) :
    Join (Split ch).1 (Split ch).2.1 (Split ch).2.2 = ch := by
  have hr := isSyllable_range h
  rw [split_syl h]
  dsimp only
  unfold Join
  rw [indexOf_leadAt_nat _ (split_div_lt h),
    indexOf_tailAt_nat _ (Nat.mod_lt _ (by norm_num))]
  have hd1 := Nat.div_add_mod (ch - 0xAC00) 588
  have hd2 := Nat.div_add_mod (ch - 0xAC00) 28
  have hd3 := Nat.div_add_mod ((ch - 0xAC00) / 28) 21
  have hdd : (ch - 0xAC00) / 28 / 21 = (ch - 0xAC00) / 588 := by
    rw [Nat.div_div_eq_div_mul]
  rw [hdd] at hd3
  omega

/-- The buffer loaded with the split parts of a syllable. -/
lemma write_splitBuf {ch : Nat} (h : isSyllable ch = true) (buf : List Nat) :
    write ⟨(Split ch).1, (Split ch).2.1, (Split ch).2.2⟩ buf =
      (LMT.empty, buf ++ [ch]) := by
  have hne : (LMT.mk (Split ch).1 (Split ch).2.1 (Split ch).2.2) ≠ LMT.empty := by
    intro hx
    exact split_lead_ne_zero h (congrArg LMT.lead hx)
  rw [write_ne hne]
  have h1 : ¬((LMT.mk (Split ch).1 (Split ch).2.1 (Split ch).2.2).lead = 0) :=
    split_lead_ne_zero h
  have h2 : ¬((LMT.mk (Split ch).1 (Split ch).2.1 (Split ch).2.2).medial = 0) :=
    split_medial_ne_zero h
  rw [if_neg h1, if_neg h2]
  exact congrArg (fun x => (LMT.empty, buf ++ [x])) (Join_Split h)

lemma tokens_all_ne (l : List Nat) (h : ∀ c ∈ l, c ≠ 45) :
    tokens false l = l.map (fun c => (c, false)) := by
  induction l with
  | nil => rfl
  | cons c r ih =>
      rw [tokens_cons (h c (List.mem_cons_self c r)), List.map_cons,
        ih (fun x hx => h x (List.mem_cons_of_mem c hx))]

lemma run_syllables : ∀ (l : List Nat), (∀ c ∈ l, isSyllable c = true) →
    ∀ (ch : Nat), isSyllable ch = true → ∀ (buf : List Nat),
    Compose (l.map (fun c => (c, false)))
      ⟨(Split ch).1, (Split ch).2.1, (Split ch).2.2⟩ buf 2 = buf ++ ch :: l := by
  intro l
  induction l with
  | nil =>
      intro _ ch hch buf
      rw [List.map_nil, compose_nil, if_pos (by decide), write_splitBuf hch]
  | cons c r ih =>
      intro hl ch hch buf
      have hc : isSyllable c = true := hl c (List.mem_cons_self c r)
      have hsm : ¬((LMT.mk (Split ch).1 (Split ch).2.1 (Split ch).2.2).lead ≠ 0 ∧
          (LMT.mk (Split ch).1 (Split ch).2.1 (Split ch).2.2).medial = 0 ∧
          (Split c).1 = 0x3147) := by
        intro hx
        exact split_medial_ne_zero hch hx.2.1
      rw [List.map_cons, step_composed hsm (isComposed_of_syllable hc),
        write_splitBuf hch, ih (fun x hx => hl x (List.mem_cons_of_mem c hx)) c hc]
      simp

/-- Composing a string of precomposed syllables is the identity. -/
lemma compose_syllables (input : List Nat)
    (h : ∀ c ∈ input, isSyllable c = true) : ComposeHangul input = input := by
  unfold ComposeHangul
  cases input with
  | nil => rfl
  | cons ch l =>
      have hch : isSyllable ch = true := h ch (List.mem_cons_self ch l)
      have h45 : ∀ c ∈ ch :: l, c ≠ 45 := by
        intro c hc
        have := isSyllable_range (h c hc)
        omega
      rw [tokens_all_ne _ h45, List.map_cons]
      have hsm : ¬(LMT.empty.lead ≠ 0 ∧ LMT.empty.medial = 0 ∧
          (Split ch).1 = 0x3147) := by
        intro hx
        exact hx.1 rfl
      rw [step_composed hsm (isComposed_of_syllable hch), write_empty,
        run_syllables l (fun x hx => h x (List.mem_cons_of_mem ch hx)) ch hch]
      rfl

/-! ### Pass-through of hyphen-free non-Hangul text -/

lemma step_nonHangul {ch : Nat} {lmt : LMT} {score : Int}
    (hsm : ¬(lmt.lead ≠ 0 ∧ lmt.medial = 0 ∧ (Split ch).1 = 0x3147))
    (hH : isHangul ch = false) (hs : score ≠ -1)
    (isTl : Bool) (rest : List (Nat × Bool)) (buf : List Nat) :
    Compose ((ch, isTl) :: rest) lmt buf score =
      Compose rest LMT.empty ((write lmt buf).2 ++ [ch]) score := by
  simp only [Compose]
  rw [if_neg hsm]
  simp [hH, hs, write_fst]

lemma run_passthrough : ∀ (l : List Nat),
    (∀ c ∈ l, isHangul c = false) → ∀ (buf : List Nat),
    Compose (l.map (fun c => (c, false))) LMT.empty buf 0 = buf ++ l := by
  intro l
  induction l with
  | nil =>
      intro _ buf
      rw [List.map_nil, compose_nil, if_pos (by decide), write_empty]
      simp
  | cons c r ih =>
      intro hl buf
      have hsm : ¬(LMT.empty.lead ≠ 0 ∧ LMT.empty.medial = 0 ∧
          (Split c).1 = 0x3147) := by
        intro hx
        exact hx.1 rfl
      rw [List.map_cons,
        step_nonHangul hsm (hl c (List.mem_cons_self c r)) (by decide) false _ buf,
        write_empty, ih (fun x hx => hl x (List.mem_cons_of_mem c hx))]
      simp



/-! ### No hyphen ever reaches the output -/

lemma Join_ne_hyphen (l m t : Nat) : Join l m t ≠ 45 := by
  unfold Join
  omega

lemma write_no_hyphen {buf : List Nat} (lmt : LMT) (h : 45 ∉ buf) :
    45 ∉ (write lmt buf).2 := by
  by_cases he : lmt = LMT.empty
  · simpa [write, he] using h
  · rw [write_ne he]
    intro hm
    rcases List.mem_append.mp hm with hm1 | hm2
    · exact h hm1
    · exact Join_ne_hyphen _ _ _ (List.mem_singleton.mp hm2).symm

lemma tokens_ne_hyphen : ∀ (input : List Nat) (b : Bool),
    ∀ p ∈ tokens b input, p.1 ≠ 45 := by
  intro input
  induction input with
  | nil => intro b p hp; simp [tokens] at hp
  | cons c r ih =>
      intro b p hp
      by_cases hc : c = 45
      · subst hc
        rw [tokens_hyphen] at hp
        exact ih true p hp
      · rw [tokens_cons hc] at hp
        rcases List.mem_cons.mp hp with h1 | h2
        · rw [h1]
          exact hc
        · exact ih false p h2

lemma compose_no_hyphen : ∀ (toks : List (Nat × Bool)) (lmt : LMT)
    (buf : List Nat) (score : Int), (∀ p ∈ toks, p.1 ≠ 45) → 45 ∉ buf →
    45 ∉ Compose toks lmt buf score := by
  intro toks
  induction toks with
  | nil =>
      intro lmt buf score _ hbuf
      rw [compose_nil]
      by_cases hs : score ≠ -1
      · rw [if_pos hs]
        exact write_no_hyphen lmt hbuf
      · rw [if_neg hs]
        exact hbuf
  | cons p toks ih =>
      intro lmt buf score htoks hbuf
      obtain ⟨ch, isTl⟩ := p
      have hch : ch ≠ 45 := htoks (ch, isTl) (List.mem_cons_self _ _)
      have htoks' : ∀ q ∈ toks, q.1 ≠ 45 := fun q hq =>
        htoks q (List.mem_cons_of_mem _ hq)
      simp only [Compose]
      split_ifs <;> refine ih _ _ _ htoks' ?_ <;>
        first
          | exact hbuf
          | exact write_no_hyphen _ hbuf
          | (intro hm
             rcases List.mem_append.mp hm with hm1 | hm2
             · first
                 | exact hbuf hm1
                 | exact write_no_hyphen _ hbuf hm1
             · exact hch (List.mem_singleton.mp hm2).symm)


end Jamo


namespace Jamo


lemma isHangul_of_jaeum {ch : Nat} (h : isJaeum ch = true) : isHangul ch = true := by
  simp [isHangul, h]

lemma isMoeum_of_jaeum {ch : Nat} (h : isJaeum ch = true) : isMoeum ch = false := by
  simp [isJaeum] at h
  simp [isMoeum]
  omega

lemma isComposed_of_jaeum {ch : Nat} (h : isJaeum ch = true) : isComposed ch = false := by
  simp [isComposed, h]

lemma Join_no_tail (l : Fin 19) (v : Fin 21) :
    Join (leadAt l.val) (0x314F + v.val) 0 = 0xAC00 + 588 * l.val + 28 * v.val := by
  unfold Join
  rw [indexOf_leadAt l, show tailJamos.indexOf 0 = 0 from rfl]
  omega

lemma Join_vowel_only (v : Fin 21) :
    Join 0x3147 (0x314F + v.val) 0 = 0xAC00 + 588 * 11 + 28 * v.val := by
  unfold Join
  rw [show leadJamos.indexOf 0x3147 = 11 from rfl,
    show tailJamos.indexOf 0 = 0 from rfl]
  omega

/-- Two vowels in a row: the open syllable is flushed without a tail and
the second vowel starts a null-onset syllable. -/
lemma two_vowels (l : Fin 19) (v v' : Fin 21) :
    ComposeHangul [leadAt l.val, 0x314F + v.val, 0x314F + v'.val] =
      [0xAC00 + 588 * l.val + 28 * v.val, 0xAC00 + 588 * 11 + 28 * v'.val] := by
  unfold ComposeHangul
  rw [tokens_cons (leadCh_ne_hyphen l), tokens_cons (vowelCh_ne_hyphen v),
    tokens_cons (vowelCh_ne_hyphen v')]
  have hsm0 : ¬(LMT.empty.lead ≠ 0 ∧ LMT.empty.medial = 0 ∧
      (Split (leadAt l.val)).1 = 0x3147) := fun hx => hx.1 rfl
  rw [step_lead_flush hsm0 (leadCh_isHangul l) (leadCh_isMoeum l)
    (leadCh_isComposed l) (flushNeeded_zero_nonneg le_rfl _) _ [], write_empty]
  have hv : (Split (0x314F + v.val)).1 = 0 := vowelCh_split v
  have hsm1 : ¬((LMT.mk (leadAt l.val) 0 0).lead ≠ 0 ∧
      (LMT.mk (leadAt l.val) 0 0).medial = 0 ∧
      (Split (0x314F + v.val)).1 = 0x3147) := by
    intro hx
    have hq := hx.2.2
    rw [hv] at hq
    exact absurd hq (by decide)
  rw [step_vowel_noflush hsm1 (vowelCh_isMoeum v) (flushNeeded_gt (by decide) _)
    false _ []]
  have hsm2 : ¬((LMT.mk (leadAt l.val) (0x314F + v.val) 0).lead ≠ 0 ∧
      (LMT.mk (leadAt l.val) (0x314F + v.val) 0).medial = 0 ∧
      (Split (0x314F + v'.val)).1 = 0x3147) := by
    intro hx
    exact vowelCh_ne_zero v hx.2.1
  rw [step_vowel_flush hsm2 (vowelCh_isMoeum v') (flushNeeded_one_one _)
    false _ []]
  have hne : LMT.mk (leadAt l.val) (0x314F + v.val) 0 ≠ LMT.empty := by
    intro hx
    exact leadCh_ne_zero l (congrArg LMT.lead hx)
  rw [write_ne hne, if_neg (show ¬((LMT.mk (leadAt l.val) (0x314F + v.val) 0).lead = 0)
    from leadCh_ne_zero l), if_neg (show ¬((LMT.mk (leadAt l.val) (0x314F + v.val) 0).medial = 0)
    from vowelCh_ne_zero v)]
  rw [show tokens false ([] : List Nat) = [] from rfl, compose_nil,
    if_pos (show (1 : Int) ≠ -1 by decide)]
  dsimp only
  have hne2 : LMT.mk 0 (0x314F + v'.val) 0 ≠ LMT.empty := by
    intro hx
    exact vowelCh_ne_zero v' (congrArg LMT.medial hx)
  rw [write_ne hne2, if_pos (show (LMT.mk 0 (0x314F + v'.val) 0).lead = 0 from rfl),
    if_neg (show ¬((LMT.mk 0 (0x314F + v'.val) 0).medial = 0) from vowelCh_ne_zero v')]
  dsimp only
  rw [Join_no_tail l v, Join_vowel_only v']
  rfl

/-- One syllable with a marked tail composes to its precomposed form. -/
lemma one_syl_marked_tail (l : Fin 19) (v : Fin 21) (t : Fin 28) (ht : t.val ≠ 0) :
    ComposeHangul [leadAt l.val, 0x314F + v.val, 45, tailAt t.val] =
      [0xAC00 + 588 * l.val + 28 * v.val + t.val] := by
  have h := compose_decompWord [⟨l, v, t⟩]
  simp only [decompWord, List.flatMap_cons, List.flatMap_nil, List.append_nil,
    decompSyl, Syl.leadCh, Syl.vowelCh, Syl.tailCh, precomp, List.map_cons,
    List.map_nil] at h
  rw [if_neg ht] at h
  exact h


end Jamo

namespace English

/-- Modelled from the spec: `unicode.IsSpace` of the Go standard library,
as used by `strings.Fields`, for the common whitespace codepoints. -/
def isSpace (c : Nat) : Bool :=
  decide (c = 32 ∨ c = 9 ∨ c = 10 ∨ c = 11 ∨ c = 12 ∨ c = 13 ∨ c = 0x85 ∨ c = 0xA0)

/-- Helper of `fields`, accumulating the current field in reverse. -/
def fieldsAux : List Nat → List Nat → List (List Nat)
  | [], acc => if acc = [] then [] else [acc.reverse]
  | c :: rest, acc =>
      if isSpace c then
        if acc = [] then fieldsAux rest [] else acc.reverse :: fieldsAux rest []
      else fieldsAux rest (c :: acc)

/-- Modelled from the spec: `strings.Fields` — the maximal runs of
non-whitespace characters. -/
def fields (s : List Nat) : List (List Nat) := fieldsAux s []

/-- The punctuation cutset of the `strings.Trim` call in
`english.Transliterate`. -/
def cutset : List Nat := [46, 44, 33, 63, 59, 58, 34, 39, 40, 41]

/-- Strip leading cutset characters. -/
def trimLeft : List Nat → List Nat
  | [] => []
  | c :: r => if c ∈ cutset then trimLeft r else c :: r

/-- Modelled from the spec: `strings.Trim` with the fixed cutset — strip
cutset characters from both ends. -/
def trim (s : List Nat) : List Nat := (trimLeft (trimLeft s).reverse).reverse

/-- Modelled from the spec: `strings.ToLower` on ASCII letters. -/
def toLower (c : Nat) : Nat := if 65 ≤ c ∧ c ≤ 90 then c + 32 else c

/-- The dictionary key computed by `Transliterate`:
`strings.ToLower(strings.Trim(w, ".,!?;:\"'()"))`. -/
def cleanWord (w : List Nat) : List Nat := (trim w).map toLower

/-- `strings.Join` with a single-space separator. -/
def joinSpace : List (List Nat) → List Nat
  | [] => []
  | [w] => w
  | w :: ws => w ++ 32 :: joinSpace ws

/-- `english.Transliterate` over an abstract loaded dictionary: split the
input into fields, look each cleaned field up, keep the original field on a
miss, join with spaces. The returned error is always nil in the source. -/
def Transliterate (dict : List Nat → Option (List Nat)) (word : List Nat) :
    List Nat × Option (List Nat) :=
  (joinSpace ((fields word).map (fun w =>
      match dict (cleanWord w) with
      | some phonetic => phonetic
      | none => w)), none)

lemma fieldsAux_no_space : ∀ (s acc : List Nat), (∀ c ∈ s, isSpace c = false) →
    fieldsAux s acc =
      if acc = [] ∧ s = [] then [] else [acc.reverse ++ s] := by
  intro s
  induction s with
  | nil =>
      intro acc _
      by_cases h : acc = []
      · simp [fieldsAux, h]
      · simp [fieldsAux, h]
  | cons c r ih =>
      intro acc hs
      have hc : isSpace c = false := hs c (List.mem_cons_self c r)
      rw [show fieldsAux (c :: r) acc =
          if isSpace c then
            (if acc = [] then fieldsAux r [] else acc.reverse :: fieldsAux r [])
          else fieldsAux r (c :: acc) from rfl, hc]
      simp only [Bool.false_eq_true, if_false]
      rw [ih (c :: acc) (fun x hx => hs x (List.mem_cons_of_mem c hx))]
      simp

lemma fields_no_space (w : List Nat) (h : ∀ c ∈ w, isSpace c = false) :
    fields w = if w = [] then [] else [w] := by
  unfold fields
  rw [fieldsAux_no_space w [] h]
  simp

end English

/-! ## Claim theorems -/


open Jamo

/-- Claim C1: for every well-formed decomposed Jamo sequence of a standard
Hangul word (lead consonant, vowel, and marker-prefixed tail per syllable,
in canonical order), ComposeHangul returns exactly the precomposed form of
that word, codepoint for codepoint; in particular "ㅈㅏㅁㅗ" composes to
"자모". -/
theorem c1_round_trip :
    (∀ ws : List Syl, ComposeHangul (decompWord ws) = ws.map precomp) ∧
    ComposeHangul (str "ㅈㅏㅁㅗ") = str "자모" :=
  ⟨compose_decompWord, by decide⟩

/-- Claim C2: a decomposed Jamo flushes the open buffer before being stored
iff its fill score (0 lead, 1 medial, 2 tail) is at most the previous
score, except when the score is tail, the previous score is medial, and the
tail slot is empty; consequently lead+vowel+marked-tail composes to one
syllable while lead+vowel+vowel composes to two, the first without tail. -/
theorem c2_flush_decision :
    (∀ (sc p : Int) (tl : Nat),
       flushNeeded sc p tl = true ↔ (sc ≤ p ∧ ¬(sc = 2 ∧ p = 1 ∧ tl = 0))) ∧
    (∀ (l : Fin 19) (v : Fin 21) (t : Fin 28), t.val ≠ 0 →
       ComposeHangul [leadAt l.val, 0x314F + v.val, 45, tailAt t.val] =
         [0xAC00 + 588 * l.val + 28 * v.val + t.val]) ∧
    (∀ (l : Fin 19) (v v' : Fin 21),
       ComposeHangul [leadAt l.val, 0x314F + v.val, 0x314F + v'.val] =
         [0xAC00 + 588 * l.val + 28 * v.val, 0xAC00 + 588 * 11 + 28 * v'.val]) :=
  ⟨fun sc p tl => by unfold flushNeeded; exact decide_eq_true_iff, one_syl_marked_tail, two_vowels⟩

theorem c2_witness :
    ComposeHangul [leadAt (0 : Fin 19).val, 0x314F + (0 : Fin 21).val, 45,
        tailAt (1 : Fin 28).val] =
      [0xAC00 + 588 * (0 : Fin 19).val + 28 * (0 : Fin 21).val + (1 : Fin 28).val] :=
  c2_flush_decision.2.1 0 0 1 (by decide)

/-- Claim C3: the spec's expected output "한그를라이즈" for the input
"ㅎㅏ-ㄴㄱㅡ-ㄹㄹㅏㅇㅣㅈㅡ" is wrong: the composer produces a different
string. -/
theorem c3_counterexample :
    ComposeHangul (str "ㅎㅏ-ㄴㄱㅡ-ㄹㄹㅏㅇㅣㅈㅡ") ≠ str "한그를라이즈" := by
  decide

/-- Claim C3 (amended): ComposeHangul applied to
"ㅎㅏ-ㄴㄱㅡ-ㄹㄹㅏㅇㅣㅈㅡ" returns exactly "한글라이즈" (the round trip of
that decomposed spelling: 한 = ㅎㅏ-ㄴ, 글 = ㄱㅡ-ㄹ, 라 = ㄹㅏ, 이 = ㅇㅣ,
즈 = ㅈㅡ). -/
theorem c3_amended :
    ComposeHangul (str "ㅎㅏ-ㄴㄱㅡ-ㄹㄹㅏㅇㅣㅈㅡ") = str "한글라이즈" := by
  decide

/-- Claim C4: the claim fails as stated, because the reader strips every
hyphen even inside pure non-Hangul text: "a-b" contains no Hangul
codepoint yet is not returned unchanged. -/
theorem c4_counterexample : ComposeHangul (str "a-b") ≠ str "a-b" := by decide

/-- Claim C4 (amended): for every input containing no Hangul codepoint and
no hyphen, ComposeHangul returns the input exactly, with no flush artifacts
inserted and no characters removed. -/
theorem c4_amended (input : List Nat)
    (h : ∀ c ∈ input, isHangul c = false ∧ c ≠ 45) :
    ComposeHangul input = input := by
  unfold ComposeHangul
  rw [tokens_all_ne input (fun c hc => (h c hc).2)]
  simpa using run_passthrough input (fun c hc => (h c hc).1) []

theorem c4_witness : ComposeHangul [104, 105, 33] = [104, 105, 33] :=
  c4_amended [104, 105, 33] (by decide)

/-- Claim C5: whenever the buffer holds a lead with the medial slot empty
and the incoming codepoint splits (as a composed syllable) with null-onset
lead ㅇ, Compose attaches that codepoint's medial and tail into the open
buffer, with no flush, no output, and score unchanged; the rule is applied
to the read result before Hangul classification, with no Hangul hypothesis
on the codepoint; in particular "ㄱ아" composes to "가". -/
theorem c5_smart_attach :
    (∀ (input : List Nat) (ch : Nat) (isTl : Bool) (rest : List Nat)
       (lmt : LMT) (buf : List Nat) (score : Int),
       read false input = some (ch, isTl, rest) →
       lmt.lead ≠ 0 → lmt.medial = 0 → (Split ch).1 = 0x3147 →
       Compose (tokens false input) lmt buf score =
         Compose (tokens false rest)
           { lmt with medial := (Split ch).2.1, tail := (Split ch).2.2 }
           buf score) ∧
    ComposeHangul (str "ㄱ아") = str "가" := by
  constructor
  · intro input ch isTl rest lmt buf score hread h1 h2 h3
    rw [tokens_eq_read input false, hread]
    exact step_smart h1 h2 h3 isTl _ buf score
  · decide

theorem c5_witness :
    Compose (tokens false [0xC544]) ⟨0x3131, 0, 0⟩ [] 0 =
      Compose (tokens false [])
        (LMT.mk 0x3131 (Split 0xC544).2.1 (Split 0xC544).2.2) [] 0 :=
  c5_smart_attach.1 [0xC544] 0xC544 false [] ⟨0x3131, 0, 0⟩ [] 0 rfl
    (by decide) rfl rfl

/-- Claim C6: a consonant read behind the hyphen marker is stored into the
open buffer's tail slot without flushing a buffer whose previous symbol was
a medial, while the same consonant without the marker flushes and starts a
new syllable as a lead; "ㅎㅏ-ㄴ" composes to the single syllable "한"
while "ㅎㅏㄴ" composes to two syllables. -/
theorem c6_marked_tail :
    (∀ (input : List Nat) (ch : Nat) (rest : List Nat) (lmt : LMT)
       (buf : List Nat),
       read false input = some (ch, true, rest) → isJaeum ch = true →
       lmt.medial ≠ 0 →
       Compose (tokens false input) lmt buf 1 =
         Compose (tokens false rest) { lmt with tail := ch } buf 2) ∧
    (∀ (input : List Nat) (ch : Nat) (rest : List Nat) (lmt : LMT)
       (buf : List Nat),
       read false input = some (ch, false, rest) → isJaeum ch = true →
       lmt.medial ≠ 0 →
       Compose (tokens false input) lmt buf 1 =
         Compose (tokens false rest) ⟨ch, 0, 0⟩ (write lmt buf).2 0) ∧
    ComposeHangul (str "ㅎㅏ-ㄴ") = str "한" ∧
    ComposeHangul (str "ㅎㅏㄴ") = str "하느" ∧
    (ComposeHangul (str "ㅎㅏㄴ")).length = 2 := by
  refine ⟨?_, ?_, by decide, by decide, by decide⟩
  · intro input ch rest lmt buf hread hj hmed
    rw [tokens_eq_read input false, hread]
    exact step_tailM_noflush (fun hx => hmed hx.2.1) (isHangul_of_jaeum hj)
      (isMoeum_of_jaeum hj) (isComposed_of_jaeum hj)
      (flushNeeded_gt (by decide) _) _ buf
  · intro input ch rest lmt buf hread hj hmed
    rw [tokens_eq_read input false, hread]
    exact step_lead_flush (fun hx => hmed hx.2.1) (isHangul_of_jaeum hj)
      (isMoeum_of_jaeum hj) (isComposed_of_jaeum hj)
      (flushNeeded_zero_nonneg (by decide) _) _ buf

theorem c6_witness :
    Compose (tokens false [45, 0x3134]) ⟨0x314E, 0x314F, 0⟩ [] 1 =
      Compose (tokens false []) (LMT.mk 0x314E 0x314F 0x3134) [] 2 :=
  c6_marked_tail.1 [45, 0x3134] 0x3134 [] ⟨0x314E, 0x314F, 0⟩ [] rfl rfl
    (by decide)

/-- Claim C7: on a string consisting entirely of precomposed Hangul
syllable codepoints, ComposeHangul is the identity. -/
theorem c7_identity_on_precomposed (input : List Nat)
    (h : ∀ c ∈ input, isSyllable c = true) : ComposeHangul input = input :=
  compose_syllables input h

theorem c7_witness : ComposeHangul (str "한글") = str "한글" :=
  c7_identity_on_precomposed (str "한글") (by decide)

/-- Claim C8: a flush of a non-empty buffer fills an empty lead slot with
ㅇ and an empty medial slot with ㅡ while the tail slot is passed through
as-is; composing a single bare lead consonant yields one syllable with the
filler vowel and no tail: "ㄱ" composes to "그". -/
theorem c8_filler_slots :
    (∀ (lmt : LMT) (buf : List Nat), lmt ≠ LMT.empty →
       write lmt buf =
         (LMT.empty,
          buf ++ [Join (if lmt.lead = 0 then 0x3147 else lmt.lead)
                       (if lmt.medial = 0 then 0x3161 else lmt.medial)
                       lmt.tail])) ∧
    ComposeHangul (str "ㄱ") = str "그" :=
  ⟨fun lmt buf h => write_ne h buf, by decide⟩

theorem c8_witness :
    write ⟨0x3131, 0, 0⟩ [] =
      (LMT.empty,
       [] ++ [Join (if (0x3131 : Nat) = 0 then 0x3147 else 0x3131)
                   (if (0 : Nat) = 0 then 0x3161 else 0) 0]) :=
  c8_filler_slots.1 ⟨0x3131, 0, 0⟩ [] (by decide)

/-- Claim C9: for every whitespace-free word whose lowercased,
punctuation-trimmed form misses the loaded dictionary,
english.Transliterate returns the original word unchanged with a nil
error; a dictionary miss is never reported as an error. -/
theorem c9_dictionary_miss (dict : List Nat → Option (List Nat))
    (word : List Nat) (hw : ∀ c ∈ word, English.isSpace c = false)
    (hmiss : dict (English.cleanWord word) = none) :
    English.Transliterate dict word = (word, none) := by
  unfold English.Transliterate
  rw [English.fields_no_space word hw]
  by_cases h : word = []
  · subst h
    rfl
  · rw [if_neg h]
    simp [hmiss, English.joinSpace]

theorem c9_witness :
    English.Transliterate (fun _ => none) [104, 105] = ([104, 105], none) :=
  c9_dictionary_miss (fun _ => none) [104, 105] (by decide) rfl

/-- Claim C10: for every input, the output of ComposeHangul contains no
hyphen codepoint: the reader consumes every hyphen as a tail marker and
never echoes it, even inside non-Hangul text. -/
theorem c10_no_hyphen_in_output (input : List Nat) :
    45 ∉ ComposeHangul input := by
  unfold ComposeHangul
  exact compose_no_hyphen _ _ _ _ (tokens_ne_hyphen input false) (by simp)
